import Mathlib

/-!
Verification development for `get_comments.py`, a per-channel YouTube comment
downloader.  The Python source is shallowly embedded below: pure string
functions operate on `List Char` (Python `str`), JSON values parsed by
`json.loads` are modelled by the inductive `JVal` (Python floats are modelled
exactly as rationals, which is faithful for every finite IEEE double; `NaN`
and infinities are outside the model), the per-video orchestrator
`download_comments` is modelled as a pure function of an environment record
describing the outcome of the two external `yt-dlp` subprocess invocations,
and the atomic file write is modelled as a small trace semantics over
filesystem operations.
-/

set_option maxHeartbeats 1000000
set_option maxRecDepth 100000

namespace GetComments

/-- Python strings are modelled as lists of characters. -/
abbrev Chars := List Char

/-- Whitespace stripped by Python `str.strip()` (ASCII subset; the source data
never contains the additional Unicode space characters Python also strips). -/
def pySpace (c : Char) : Bool :=
  c == ' ' || c == '\t' || c == '\n' || c == '\r' || c == '\x0b' || c == '\x0c'

/-- Model of Python `str.strip()`. -/
def pyStrip (s : Chars) : Chars :=
  ((s.dropWhile pySpace).reverse.dropWhile pySpace).reverse

/-- One character of the video-id alphabet `[0-9A-Za-z_-]` (the regex
`YT_ID_RE` in the source; `Char.isAlphanum` is exactly ASCII `[0-9A-Za-z]`). -/
def isIdChar (c : Char) : Bool :=
  c.isAlphanum || c == '_' || c == '-'

/-- Model of `YT_ID_RE.fullmatch`: the fixed-length 11-character id pattern. -/
def ytIdMatch (s : Chars) : Bool :=
  s.length == 11 && s.all isIdChar

/-- Components of `urllib.parse.urlparse` used by the source: network
location, path and query. -/
structure UrlParts where
  netloc : Chars
  path : Chars
  query : Chars

/-- Characters ending the netloc component. -/
def netlocDelim (c : Char) : Bool := c == '/' || c == '?' || c == '#'

/-- Characters ending the path component. -/
def pathDelim (c : Char) : Bool := c == '?' || c == '#'

/-- Strip the URL scheme.  The source only calls `urlparse` on strings that
start with `http://` or `https://`, so only these two schemes are modelled. -/
def afterScheme (s : Chars) : Chars :=
  if "http://".toList.isPrefixOf s then s.drop 7
  else if "https://".toList.isPrefixOf s then s.drop 8
  else s

/-- Model of `urllib.parse.urlparse` restricted to the fields the source
reads.  Percent-decoding and the rarely used `params` component (a `;` in the
last path segment) are not modelled; no recognized URL shape contains them. -/
def urlparse (s : Chars) : UrlParts :=
  let rest := afterScheme s
  let netloc := rest.takeWhile (fun c => !netlocDelim c)
  let rest2 := rest.dropWhile (fun c => !netlocDelim c)
  let path := rest2.takeWhile (fun c => !pathDelim c)
  let rest3 := rest2.dropWhile (fun c => !pathDelim c)
  let query :=
    match rest3 with
    | '?' :: t => t.takeWhile (fun c => c != '#')
    | _ => []
  ⟨netloc, path, query⟩

/-- Model of Python `str.split(sep)` for a one-character separator. -/
def splitSep (sep : Char) : Chars → List Chars
  | [] => [[]]
  | c :: t =>
    if c == sep then [] :: splitSep sep t
    else
      match splitSep sep t with
      | [] => [[c]]
      | g :: gs => (c :: g) :: gs

/-- One `k=v` field of a query string, as `urllib.parse.parse_qs` treats it
with the default options: fields without `=` and fields with an empty value
are dropped.  Percent-decoding is not modelled (valid ids contain no `%` or
`+`). -/
def qsField (f : Chars) : Option (Chars × Chars) :=
  if f.contains '=' then
    let k := f.takeWhile (fun c => c != '=')
    let v := (f.dropWhile (fun c => c != '=')).tail
    if v.isEmpty then none else some (k, v)
  else none

/-- First value bound to the key `v` by `parse_qs`, i.e. `qs['v'][0]` guarded
by `'v' in qs`. -/
def parseQsV (q : Chars) : Option Chars :=
  (((splitSep '&' q).filterMap qsField).find? (fun kv => kv.1 == "v".toList)).map (·.2)

/-- Model of Python substring containment `needle in hay`. -/
def containsSub (needle : Chars) : Chars → Bool
  | [] => needle.isEmpty
  | c :: t => needle.isPrefixOf (c :: t) || containsSub needle t

/-- Return the candidate only when it matches the id pattern (the repeated
`if YT_ID_RE.fullmatch(candidate): return candidate` guard in the source). -/
def checked (c : Chars) : Option Chars :=
  if ytIdMatch c then some c else none

/-- Legacy proxied-embed branch: host ends with `googleusercontent.com` and
path starts with `/youtube.com/v/`; the candidate is `path.split("/")[3]`,
i.e. the path segment after the 15-character prefix. -/
def guBranch (host path : Chars) : Option Chars :=
  if "googleusercontent.com".toList.isSuffixOf host &&
     "/youtube.com/v/".toList.isPrefixOf path then
    checked ((path.drop 15).takeWhile (fun c => c != '/'))
  else none

/-- Canonical watch-URL branch: path is exactly `/watch` and the query
carries a valid `v` parameter. -/
def watchBranch (path query : Chars) : Option Chars :=
  if path = "/watch".toList then
    match parseQsV query with
    | some v => checked v
    | none => none
  else none

/-- Path-prefix branch used for `/shorts/` and `/embed/`: the candidate is
the path segment directly after the prefix of length `n`. -/
def pathCand (p : Chars) (n : Nat) (path : Chars) : Option Chars :=
  if p.isPrefixOf path then
    checked ((path.drop n).takeWhile (fun c => c != '/'))
  else none

/-- Early return on a matched candidate, fall through otherwise (Python's
`if ...: return candidate` pattern). -/
def optOr (o : Option Chars) (alt : Chars) : Chars :=
  match o with
  | some c => c
  | none => alt

/-- The `'youtube.com' in host` branch of `extract_video_id`: watch URL, then
the `/shorts/` and `/embed/` prefixes, falling back to the stripped input. -/
def ytBranch (path query s : Chars) : Chars :=
  optOr (watchBranch path query)
    (optOr (pathCand "/shorts/".toList 8 path)
      (optOr (pathCand "/embed/".toList 7 path) s))

/-- The `'youtu.be' in host` branch: the whole path minus leading slashes. -/
def beBranch (path s : Chars) : Chars :=
  optOr (checked (path.dropWhile (fun c => c == '/'))) s

/-- Body of `extract_video_id` after `s = url_or_id.strip()`. -/
def extractCore (s : Chars) : Chars :=
  if ytIdMatch s then s
  else if "http://".toList.isPrefixOf s || "https://".toList.isPrefixOf s then
    let parsed := urlparse s
    let host := parsed.netloc.map Char.toLower
    let path := parsed.path
    optOr (guBranch host path)
      (if containsSub "youtube.com".toList host then ytBranch path parsed.query s
       else if containsSub "youtu.be".toList host then beBranch path s
       else s)
  else s

/-- Model of `extract_video_id`: canonical 11-character id from a URL or bare
id, falling back to the stripped input.  Pure and total by construction. -/
def extract_video_id (url_or_id : Chars) : Chars :=
  extractCore (pyStrip url_or_id)

/-- Values appearing in yt-dlp's JSON output (result of `json.loads`).
Floats are modelled exactly as rationals: every finite IEEE double is a
rational and all float operations the source performs on them
(`int(0.95 * x)`) are exact rational operations followed by rounding, which
the model applies in one exact step. -/
inductive JVal where
  | null
  | bool (b : Bool)
  | int (n : Int)
  | float (q : ℚ)
  | str (s : Chars)
  | arr (xs : List JVal)
  | obj (kvs : List (String × JVal))

/-- Python truthiness of a JSON value. -/
def truthy : JVal → Bool
  | .null => false
  | .bool b => b
  | .int n => n != 0
  | .float q => q != 0
  | .str s => !s.isEmpty
  | .arr xs => !xs.isEmpty
  | .obj kvs => !kvs.isEmpty

/-- Whether a value is Python `None` (JSON null / missing key via `get`). -/
def JVal.isNull : JVal → Bool
  | .null => true
  | _ => false

/-- Decimal digits of a natural number (value of `str(n)` for `n ≥ 0`),
written with explicit fuel so that it reduces definitionally. -/
def natCharsAux : Nat → Nat → Chars
  | 0, _ => []
  | fuel + 1, n =>
    if n < 10 then [Char.ofNat ('0'.toNat + n)]
    else natCharsAux fuel (n / 10) ++ [Char.ofNat ('0'.toNat + n % 10)]

/-- Model of Python `str(n)` for an integer `n`. -/
def intChars (n : Int) : Chars :=
  match n with
  | .ofNat m => natCharsAux (m + 1) m
  | .negSucc m => '-' :: natCharsAux (m + 2) (m + 1)

/-- Model of Python `str(v)` for the values the claims exercise.  The `repr`
of floats, lists and dicts is not modelled: no claim (and no saved record
produced by the normalizer) ever stringifies one. -/
def pyStr : JVal → Chars
  | .null => "None".toList
  | .bool true => "True".toList
  | .bool false => "False".toList
  | .int n => intChars n
  | .float _ => "<float>".toList
  | .str s => s
  | .arr _ => "<list>".toList
  | .obj _ => "<dict>".toList

/-- Model of `dict.get(k, default)` on an association list. -/
def pyGetD (rec : List (String × JVal)) (k : String) (d : JVal) : JVal :=
  match rec.lookup k with
  | some v => v
  | none => d

/-- Truncation toward zero, the rounding of Python `int(float)`. -/
def ratTrunc (q : ℚ) : Int :=
  if 0 ≤ q then ⌊q⌋ else ⌈q⌉

/-- Value of a nonempty ASCII digit string, the accumulator loop of integer
parsing. -/
def digitsVal (ds : Chars) : Nat :=
  ds.foldl (fun acc c => acc * 10 + (c.toNat - '0'.toNat)) 0

/-- Digit run accepted by Python `int(str)`: groups of ASCII digits separated
by single underscores (Unicode digits are not modelled). -/
def pyIntDigits (s : Chars) : Option Nat :=
  let gs := splitSep '_' s
  if gs.all (fun g => !g.isEmpty && g.all Char.isDigit) then
    some (digitsVal (s.filter (fun c => c != '_')))
  else none

/-- Model of Python `int(str)` on an already-stripped string: optional sign
followed by digits. -/
def pyIntOfString (s : Chars) : Option Int :=
  match s with
  | [] => none
  | c :: t =>
    if c == '+' then
      match pyIntDigits t with
      | some n => some (n : Int)
      | none => none
    else if c == '-' then
      match pyIntDigits t with
      | some n => some (-(n : Int))
      | none => none
    else
      match pyIntDigits (c :: t) with
      | some n => some (n : Int)
      | none => none

/-- Model of `_to_bool`. -/
def _to_bool (v : JVal) : Bool :=
  match v with
  | .bool b => b
  | .int n => n != 0
  | .str s =>
    let t := (pyStrip s).map Char.toLower
    t == "true".toList || t == "1".toList || t == "yes".toList ||
      t == "y".toList || t == "t".toList
  | _ => false

/-- Model of `_to_int`. -/
def _to_int (v : JVal) : Int :=
  match v with
  | .bool b => if b then 1 else 0
  | .int n => n
  | .float q => ratTrunc q
  | .str s =>
    match pyIntOfString (pyStrip s) with
    | some n => n
    | none => 0
  | _ => 0

/-- Model of `_to_str`. -/
def _to_str (v : JVal) : Chars :=
  match v with
  | .null => []
  | .str s => s
  | v => pyStr v

/-- Model of `detect_edited_flag`: a string `_time_text` or `time_text`
containing the `(edited)` marker. -/
def detect_edited_flag (rec : List (String × JVal)) : Bool :=
  let check (k : String) : Bool :=
    match rec.lookup k with
    | some (.str s) => containsSub "(edited)".toList s
    | _ => false
  check "_time_text" || check "time_text"

/-- The `DROP_FIELDS` set of the source. -/
def DROP_FIELDS : List String :=
  ["author_thumbnail", "author_url", "_time_text", "time_text"]

/-- The local copy of a record with `DROP_FIELDS` removed. -/
def dropFields (rec : List (String × JVal)) : List (String × JVal) :=
  rec.filter (fun kv => !DROP_FIELDS.contains kv.1)

/-- Model of `normalize_id_parent`: root comments take the portion of the
raw id before the first `.` truncated to 26 characters; replies take the
portion after the first `.` keeping the last 22 characters. -/
def normalize_id_parent (rec : List (String × JVal)) : Chars × Chars :=
  let raw_id := _to_str (pyGetD rec "id" (.str []))
  let parent := _to_str (pyGetD rec "parent" (.str []))
  if parent = "root".toList then
    let first := if raw_id.contains '.' then raw_id.takeWhile (fun c => c != '.') else raw_id
    let id_out := if 26 ≤ first.length then first.take 26 else first
    (id_out, [])
  else
    let after := if raw_id.contains '.' then (raw_id.dropWhile (fun c => c != '.')).tail else raw_id
    let id_out := if 22 ≤ after.length then after.drop (after.length - 22) else after
    (id_out, parent)

/-- Model of `normalize_record`.  The output dict is `dict(DEFAULTS)` with
every key overwritten in place, so its keys are exactly the `DEFAULTS` keys
in insertion order. -/
def normalize_record (rec : List (String × JVal)) : List (String × JVal) :=
  let edited := detect_edited_flag rec
  let loc := dropFields rec
  let idp := normalize_id_parent loc
  [("id", .str idp.1),
   ("parent", .str idp.2),
   ("text", .str (_to_str (pyGetD loc "text" (.str [])))),
   ("like_count", .int (_to_int (pyGetD loc "like_count" (.int 0)))),
   ("author_id", .str (_to_str (pyGetD loc "author_id" (.str [])))),
   ("author", .str (_to_str (pyGetD loc "author" (.str [])))),
   ("author_is_uploader", .bool (_to_bool (pyGetD loc "author_is_uploader" (.bool false)))),
   ("author_is_verified", .bool (_to_bool (pyGetD loc "author_is_verified" (.bool false)))),
   ("is_favorited", .bool (_to_bool (pyGetD loc "is_favorited" (.bool false)))),
   ("is_pinned", .bool (_to_bool (pyGetD loc "is_pinned" (.bool false)))),
   ("timestamp", .int (_to_int (pyGetD loc "timestamp" (.int 0)))),
   ("edited", .bool edited)]

/-- Model of the `rec if isinstance(rec, dict) else {}` guard. -/
def asDict : JVal → List (String × JVal)
  | .obj kvs => kvs
  | _ => []

/-- Model of `normalize_comments_list`. -/
def normalize_comments_list (v : JVal) : List (List (String × JVal)) :=
  match v with
  | .arr xs => xs.map (fun x => normalize_record (asDict x))
  | _ => []

/-- JSON string escaping performed by `json.dumps(..., ensure_ascii=False)`:
quote, backslash and control characters only; everything else verbatim. -/
def escChar (c : Char) : Chars :=
  if c = '"' then ['\\', '"']
  else if c = '\\' then ['\\', '\\']
  else if c = '\n' then ['\\', 'n']
  else if c = '\t' then ['\\', 't']
  else if c = '\r' then ['\\', 'r']
  else if c.toNat = 8 then ['\\', 'b']
  else if c.toNat = 12 then ['\\', 'f']
  else if c.toNat < 32 then
    ['\\', 'u', '0', '0',
     (if c.toNat / 16 < 10 then Char.ofNat ('0'.toNat + c.toNat / 16)
      else Char.ofNat ('a'.toNat + c.toNat / 16 - 10)),
     (if c.toNat % 16 < 10 then Char.ofNat ('0'.toNat + c.toNat % 16)
      else Char.ofNat ('a'.toNat + c.toNat % 16 - 10))]
  else [c]

/-- Serialized JSON string literal. -/
def serStr (s : Chars) : Chars :=
  '"' :: (s.map escChar).flatten ++ ['"']

/-- Serialization of the flat values a normalized record contains (strings,
integers and booleans; floats never occur in normalizer output). -/
def serFlat : JVal → Chars
  | .null => "null".toList
  | .bool true => "true".toList
  | .bool false => "false".toList
  | .int n => intChars n
  | .str s => serStr s
  | .float _ => "0".toList
  | .arr _ => "[]".toList
  | .obj _ => "{}".toList

/-- Model of Python `",".join`. -/
def joinComma : List Chars → Chars
  | [] => []
  | [x] => x
  | x :: y :: r => x ++ ',' :: joinComma (y :: r)

/-- Compact serialization of one normalized record, as
`json.dumps(rec, ensure_ascii=False, separators=(",", ":"))` renders it. -/
def serRecord (kvs : List (String × JVal)) : Chars :=
  '{' :: joinComma (kvs.map (fun kv => serStr kv.1.toList ++ ':' :: serFlat kv.2)) ++ ['}']

/-- Compact serialization of the normalized comment list. -/
def serComments (rs : List (List (String × JVal))) : Chars :=
  '[' :: joinComma (rs.map serRecord) ++ [']']

/-- UTF-8 byte length of a string, the `len(s.encode('utf-8'))` check. -/
def utf8Len (s : Chars) : Nat :=
  s.foldl
    (fun acc c =>
      acc + (if c.toNat < 128 then 1 else if c.toNat < 2048 then 2
             else if c.toNat < 65536 then 3 else 4)) 0

/-- Python dynamic-type errors that `download_comments` does not catch. -/
inductive PyErr where
  | typeError
  | attributeError

/-- Outcome of one external `yt-dlp` invocation: non-zero exit with captured
stderr (`subprocess.CalledProcessError`), zero exit with stdout that is not
valid JSON (`json.JSONDecodeError`), or a parsed JSON payload. -/
inductive ToolResult where
  | fail (stderr : Chars)
  | badJson
  | ok (payload : JVal)

/-- Model of `.get(k)` on a parsed payload: an `AttributeError` when the
payload is not a dict, otherwise the value (`null` for a missing key, as
Python's `None`). -/
def pyGetJ (j : JVal) (k : String) : Except PyErr JVal :=
  match j with
  | .obj kvs => .ok (pyGetD kvs k .null)
  | _ => .error .attributeError

/-- Model of `prefetch_metadata`: invocation failure and JSON decode failure
are caught and yield `(None, None, None)`; reading the three fields of a
non-dict payload raises `AttributeError`, which is not caught. -/
def prefetch_metadata (r : ToolResult) : Except PyErr (JVal × JVal × JVal) :=
  match r with
  | .fail _ => .ok (.null, .null, .null)
  | .badJson => .ok (.null, .null, .null)
  | .ok info => do
    let cc ← pyGetJ info "comment_count"
    let ud ← pyGetJ info "upload_date"
    let vid ← pyGetJ info "id"
    return (cc, ud, vid)

/-- Model of Python `len`: sized values only, `TypeError` otherwise. -/
def pyLen : JVal → Except PyErr Int
  | .str s => .ok s.length
  | .arr xs => .ok xs.length
  | .obj kvs => .ok kvs.length
  | _ => .error .typeError

/-- Model of `int(0.95 * expected_count)`: exact rational multiply followed
by truncation toward zero.  This is the value Python computes for every
comment count below `2 ** 45` (the IEEE product of `0.95` and the count
rounds to the same integer as the exact product there); non-numeric values
raise `TypeError`. -/
def pyThreshold : JVal → Except PyErr Int
  | .bool b => .ok (ratTrunc ((0.95 : ℚ) * (if b then 1 else 0)))
  | .int n => .ok (ratTrunc ((0.95 : ℚ) * n))
  | .float q => .ok (ratTrunc ((0.95 : ℚ) * q))
  | _ => .error .typeError

/-- Model of Python `a or b`. -/
def pyOr (a b : JVal) : JVal := if truthy a then a else b

/-- Whether a filename matches the glob pattern `{vid}_*.json`. -/
def globMatch (vid name : Chars) : Bool :=
  (vid ++ "_".toList).isPrefixOf name && ".json".toList.isSuffixOf name &&
    vid.length + 6 ≤ name.length

/-- Whether the output directory already holds a dump for `vid`
(`any(output_path.glob(f ...))`; the braces of the f-string expand to the
id). -/
def globAny (files : List Chars) (vid : Chars) : Bool :=
  files.any (globMatch vid)

/-- Environment of one `download_comments` invocation: the video URL, the
filenames already present in the output directory, and the outcome of the
probe and full yt-dlp invocations.  The filesystem itself is assumed
reliable; only the external tool misbehaves. -/
structure FetchEnv where
  url : Chars
  dirFiles : List Chars
  probeRes : ToolResult
  fullRes : ToolResult

/-- Observable result of one `download_comments` invocation: the uncaught
exception if one propagates, the file written (name and content) if any, the
number of `pbar.update(1)` calls, and the number of external invocations. -/
structure DCOut where
  raised : Option PyErr
  written : Option (Chars × Chars)
  pbarUpdates : Nat
  fetches : Nat

/-- The completeness gate of the `try` block: skipped when the probe gave no
comment count (`None`), otherwise `len(comments) >= int(0.95 * count)`. -/
def gateCheck (cc : JVal) (got : Int) : Except PyErr Bool :=
  if cc.isNull then .ok true
  else
    match pyThreshold cc with
    | .error e => .error e
    | .ok thr => .ok (decide (thr ≤ got))

/-- Final stage of the `try` block: normalize, serialize compactly, build
the `{id}_{upload_date}.json` filename, and drop trivially small output
(`len(...encode()) <= 3`). -/
def sizeGate (comments upload_date video_id : JVal) : Option (Chars × Chars) :=
  let jsonStr := serComments (normalize_comments_list comments)
  let filename := pyStr video_id ++ '_' :: pyStr upload_date ++ ".json".toList
  if utf8Len jsonStr ≤ 3 then none else some (filename, jsonStr)

/-- Continuation of the `try` block after the gate was evaluated. -/
def afterGate (comments upload_date video_id : JVal) :
    Except PyErr Bool → Except PyErr (Option (Chars × Chars))
  | .error e => .error e
  | .ok gateOk =>
    if !gateOk then .ok none
    else .ok (sizeGate comments upload_date video_id)

/-- Continuation of the `try` block after `len(comments_data)`. -/
def afterLen (pre : JVal × JVal × JVal) (comments upload_date video_id : JVal) :
    Except PyErr Int → Except PyErr (Option (Chars × Chars))
  | .error e => .error e
  | .ok got => afterGate comments upload_date video_id (gateCheck pre.1 got)

/-- Body of the `try` block of `download_comments` once the full payload
parsed to a dict: extract and check fields, enforce the gate, normalize,
serialize, reject trivially small output, otherwise produce the write. -/
def tryBodyObj (pre : JVal × JVal × JVal) (kvs : List (String × JVal)) :
    Except PyErr (Option (Chars × Chars)) :=
  let comments := pyGetD kvs "comments" .null
  let upload_date := pyOr (pyGetD kvs "upload_date" .null) pre.2.1
  let video_id := pyOr (pyGetD kvs "id" .null) pre.2.2
  if comments.isNull || !truthy upload_date || !truthy video_id then .ok none
  else afterLen pre comments upload_date video_id (pyLen comments)

/-- Body of the `try` block of `download_comments`: `CalledProcessError` and
`JSONDecodeError` are caught (yielding no write); reading fields of a
non-dict payload raises `AttributeError`, which propagates. -/
def tryBody (env : FetchEnv) (pre : JVal × JVal × JVal) :
    Except PyErr (Option (Chars × Chars)) :=
  match env.fullRes with
  | .fail _ => .ok none
  | .badJson => .ok none
  | .ok info =>
    match info with
    | .obj kvs => tryBodyObj pre kvs
    | _ => .error .attributeError

/-- Model of `download_comments`: skip when a dump already exists (one
progress tick, no fetch); a `prefetch_metadata` exception propagates before
the `try` block, so the `finally` never runs; otherwise the `finally`
guarantees exactly one progress tick whatever the try block does. -/
def download_comments (env : FetchEnv) : DCOut :=
  let vid := extract_video_id env.url
  if globAny env.dirFiles vid then
    ⟨none, none, 1, 0⟩
  else
    match prefetch_metadata env.probeRes with
    | .error e => ⟨some e, none, 0, 1⟩
    | .ok pre =>
      match tryBody env pre with
      | .error e => ⟨some e, none, 1, 2⟩
      | .ok w => ⟨none, w, 1, 2⟩

/-- Filesystem operations performed by `atomic_write_text`, in order: write
the sibling temporary file, fsync it, rename it over the final path. -/
inductive FsOp where
  | writeTmp (text : Chars)
  | fsyncTmp
  | renameTmpToFinal

/-- The operation trace of `atomic_write_text(final_path, text)`. -/
def atomic_write_text (text : Chars) : List FsOp :=
  [.writeTmp text, .fsyncTmp, .renameTmpToFinal]

/-- Name of the sibling temporary file (`with_suffix` appends `.partial`
after the existing `.json` suffix, in the same directory). -/
def tmpName (finalPath : Chars) : Chars :=
  finalPath ++ ".partial".toList

/-- Visible filesystem state for the two paths `atomic_write_text`
touches. -/
structure FsState where
  finalFile : Option Chars
  tmpFile : Option Chars

/-- Effect of one filesystem operation; `os.replace` atomically moves the
temporary content onto the final path. -/
def applyOp (st : FsState) : FsOp → FsState
  | .writeTmp t => { st with tmpFile := some t }
  | .fsyncTmp => st
  | .renameTmpToFinal => { finalFile := st.tmpFile, tmpFile := none }

/-- Run a list of filesystem operations. -/
def runOps (st : FsState) (ops : List FsOp) : FsState :=
  ops.foldl applyOp st

/-- States observable if the process is interrupted at any point strictly
before the rename: before anything happened, mid-write (any prefix of the
text reached the temporary file), after the completed write, or after the
fsync. -/
inductive MidWrite (text : Chars) (st0 : FsState) : FsState → Prop where
  | before : MidWrite text st0 st0
  | during (k : Nat) : MidWrite text st0 { st0 with tmpFile := some (text.take k) }
  | afterWrite : MidWrite text st0 { st0 with tmpFile := some text }
  | afterFsync : MidWrite text st0 (runOps st0 [.writeTmp text, .fsyncTmp])

/-! Spec-side vocabulary: definitions phrased the way the specification
describes the behaviour, to be related to the embedded source functions. -/

/-- The decomposition of a string at its first `.`: `i = a ++ "." ++ b` with
no dot inside `a`. -/
def SplitsAtFirstDot (i a b : Chars) : Prop :=
  i = a ++ '.' :: b ∧ '.' ∉ a

/-- The last `n` characters of a string (all of it when shorter). -/
def lastChars (n : Nat) (l : Chars) : Chars :=
  (l.reverse.take n).reverse

/-- The twelve canonical fields, in output order. -/
def canonicalKeys : List String :=
  ["id", "parent", "text", "like_count", "author_id", "author",
   "author_is_uploader", "author_is_verified", "is_favorited", "is_pinned",
   "timestamp", "edited"]

/-- Raw sources whose integer coercion is necessarily nonnegative: anything
except a negative integer, a negative float, or a string parsing to a
negative integer. -/
def nonNegSrc : Option JVal → Prop
  | some (.int n) => 0 ≤ n
  | some (.float q) => 0 ≤ q
  | some (.str s) => ∀ n, pyIntOfString (pyStrip s) = some n → 0 ≤ n
  | _ => True

/-- Probe `comment_count` values on which `int(0.95 * v)` does not raise
(`None` skips the gate; strings, lists and dicts raise `TypeError`). -/
def ccSafe : JVal → Prop
  | .str _ => False
  | .arr _ => False
  | .obj _ => False
  | _ => True

/-- Full-payload `comments` values on which the orchestrator body does not
raise: `len` works on strings, lists and dicts, and `null` stops before
`len` is reached. -/
def lenSafe : JVal → Prop
  | .bool _ => False
  | .int _ => False
  | .float _ => False
  | _ => True

/-- Canonical watch URL carrying the id in the `v` query parameter. -/
def watchUrl (v : Chars) : Chars := "https://www.youtube.com/watch?v=".toList ++ v

/-- Short-form URL with the id directly after `/shorts/`. -/
def shortsUrl (v : Chars) : Chars := "https://www.youtube.com/shorts/".toList ++ v

/-- Embed URL with the id directly after `/embed/`. -/
def embedUrl (v : Chars) : Chars := "https://www.youtube.com/embed/".toList ++ v

/-- Short-domain URL whose whole path is the id. -/
def shortDomUrl (v : Chars) : Chars := "https://youtu.be/".toList ++ v

/-- Legacy proxied-embed URL shape. -/
def legacyUrl (v : Chars) : Chars :=
  "https://lh3.googleusercontent.com/youtube.com/v/".toList ++ v

/-! Concrete environments used to instantiate the theorems. -/

/-- Environment whose probe invocation succeeds but returns a JSON list. -/
def envProbeList : FetchEnv :=
  { url := "u".toList, dirFiles := [], probeRes := .ok (.arr []), fullRes := .fail [] }

/-- Environment where both invocations fail outright. -/
def envBothFail : FetchEnv :=
  { url := "u".toList, dirFiles := [], probeRes := .fail [], fullRes := .fail [] }

/-- Environment with an expected count of 100 and `n` retrieved comments. -/
def gateEnv (cc : JVal) (n : Nat) : FetchEnv :=
  { url := "https://www.youtube.com/watch?v=abc12345678".toList
    dirFiles := []
    probeRes := .ok (.obj [("comment_count", cc)])
    fullRes := .ok (.obj
      [("comments", .arr (List.replicate n (.obj []))),
       ("upload_date", .str "20240101".toList),
       ("id", .str "abc12345678".toList)]) }

/-- Environment of a successful single-comment fetch with no probe data. -/
def envWrite : FetchEnv :=
  { url := "https://www.youtube.com/watch?v=abc12345678".toList
    dirFiles := []
    probeRes := .fail []
    fullRes := .ok (.obj
      [("comments", .arr [.obj []]),
       ("upload_date", .str "20240101".toList),
       ("id", .str "abc12345678".toList)]) }

/-! ### Basic list facts -/

theorem takeWhile_all {p : Char → Bool} {l : Chars} (h : ∀ c ∈ l, p c = true) :
    l.takeWhile p = l :=
  List.takeWhile_eq_self_iff.mpr h

theorem dropWhile_cons_false {p : Char → Bool} {c : Char} {t : Chars} (h : p c = false) :
    (c :: t).dropWhile p = c :: t := by
  simp [List.dropWhile_cons, h]

theorem takeWhile_append_all {p : Char → Bool} {xs : Chars} (ys : Chars)
    (h : ∀ c ∈ xs, p c = true) : (xs ++ ys).takeWhile p = xs ++ ys.takeWhile p := by
  induction xs with
  | nil => simp
  | cons c t ih =>
    simp [List.takeWhile_cons, h c (List.mem_cons_self c t),
      ih (fun d hd => h d (List.mem_cons_of_mem c hd))]

theorem dropWhile_append_all {p : Char → Bool} {xs : Chars} (ys : Chars)
    (h : ∀ c ∈ xs, p c = true) : (xs ++ ys).dropWhile p = ys.dropWhile p := by
  induction xs with
  | nil => simp
  | cons c t ih =>
    simp [List.dropWhile_cons, h c (List.mem_cons_self c t),
      ih (fun d hd => h d (List.mem_cons_of_mem c hd))]

theorem pyStrip_eq_self {l : Chars} (h : ∀ c ∈ l, pySpace c = false) : pyStrip l = l := by
  have h1 : l.dropWhile pySpace = l := by
    cases l with
    | nil => rfl
    | cons c t => exact dropWhile_cons_false (h c (List.mem_cons_self c t))
  have h2 : l.reverse.dropWhile pySpace = l.reverse := by
    cases hl : l.reverse with
    | nil => rfl
    | cons c t =>
      refine dropWhile_cons_false (h c ?_)
      refine List.mem_reverse.mp ?_
      rw [hl]
      exact List.mem_cons_self c t
  unfold pyStrip
  rw [h1, h2, List.reverse_reverse]

theorem contains_eq_false_iff {l : Chars} {a : Char} : l.contains a = false ↔ a ∉ l := by
  show l.elem a = false ↔ a ∉ l
  constructor
  · intro h hm
    have h2 : l.elem a = true := List.elem_iff.mpr hm
    rw [h2] at h
    cases h
  · intro h
    cases hc : l.elem a
    · rfl
    · exact absurd (List.elem_iff.mp hc) h

theorem bne_dot_of_not_mem {xs : Chars} (h : '.' ∉ xs) :
    ∀ c ∈ xs, (c != '.') = true := by
  intro c hc
  refine bne_iff_ne.mpr ?_
  intro e
  rw [e] at hc
  exact h hc

theorem splits_contains {i a b : Chars} (h : SplitsAtFirstDot i a b) :
    i.contains '.' = true := by
  rcases h with ⟨rfl, -⟩
  have hm : '.' ∈ a ++ '.' :: b := List.mem_append_right a (List.mem_cons_self _ _)
  cases hc : (a ++ '.' :: b).contains '.'
  · exact absurd hm (contains_eq_false_iff.mp hc)
  · rfl

theorem takeWhile_splits {i a b : Chars} (h : SplitsAtFirstDot i a b) :
    i.takeWhile (fun c => c != '.') = a := by
  rcases h with ⟨rfl, hna⟩
  rw [takeWhile_append_all _ (bne_dot_of_not_mem hna)]
  simp [List.takeWhile_cons]

theorem dropWhile_splits {i a b : Chars} (h : SplitsAtFirstDot i a b) :
    i.dropWhile (fun c => c != '.') = '.' :: b := by
  rcases h with ⟨rfl, hna⟩
  rw [dropWhile_append_all _ (bne_dot_of_not_mem hna)]
  simp [List.dropWhile_cons]

theorem takeWhile_nodot {i : Chars} (h : '.' ∉ i) :
    i.takeWhile (fun c => c != '.') = i :=
  takeWhile_all (bne_dot_of_not_mem h)

theorem take_code_eq {l : Chars} (n : Nat) :
    (if n ≤ l.length then l.take n else l) = l.take n := by
  split
  · rfl
  · next h => exact (List.take_of_length_le (Nat.le_of_lt (Nat.lt_of_not_le h))).symm

theorem lastChars_eq_drop (n : Nat) (l : Chars) : lastChars n l = l.drop (l.length - n) := by
  induction l with
  | nil => simp [lastChars]
  | cons c t ih =>
    by_cases h : n ≤ t.length
    · have h1 : (c :: t).reverse.take n = t.reverse.take n := by
        rw [List.reverse_cons]
        exact List.take_append_of_le_length (by simpa using h)
      have h2 : (c :: t).length - n = (t.length - n) + 1 := by
        simp only [List.length_cons]
        omega
      calc lastChars n (c :: t) = (t.reverse.take n).reverse := by rw [lastChars, h1]
        _ = t.drop (t.length - n) := ih
        _ = (c :: t).drop ((c :: t).length - n) := by rw [h2, List.drop_succ_cons]
    · have hlen : (c :: t).length ≤ n := by simp only [List.length_cons]; omega
      have h1 : (c :: t).reverse.take n = (c :: t).reverse :=
        List.take_of_length_le (by simpa using hlen)
      rw [lastChars, h1, List.reverse_reverse, Nat.sub_eq_zero_of_le hlen, List.drop_zero]

theorem drop_code_eq (n : Nat) (l : Chars) :
    (if n ≤ l.length then l.drop (l.length - n) else l) = lastChars n l := by
  rw [lastChars_eq_drop]
  split
  · rfl
  · next h => rw [Nat.sub_eq_zero_of_le (Nat.le_of_lt (Nat.lt_of_not_le h)), List.drop_zero]

/-! ### C2 and C10: id/parent encoding -/

/-- C2: for a record whose raw `id` and `parent` fields hold strings, if the
parent is the literal root marker `"root"` the normalized record has
`parent = ""` and `id` equal to the portion of the raw id before the first
`.` (the whole value when there is no dot) truncated to at most 26
characters; otherwise the normalized parent is the raw parent unchanged and
`id` is the portion after the first `.` (the whole value when there is no
dot) keeping at most the last 22 characters. -/
theorem id_parent_encoding_spec (rec : List (String × JVal)) (i p : Chars)
    (hi : rec.lookup "id" = some (.str i)) (hp : rec.lookup "parent" = some (.str p)) :
    (p = "root".toList →
       (∀ a b, SplitsAtFirstDot i a b → normalize_id_parent rec = (a.take 26, [])) ∧
       ('.' ∉ i → normalize_id_parent rec = (i.take 26, []))) ∧
    (p ≠ "root".toList →
       (∀ a b, SplitsAtFirstDot i a b → normalize_id_parent rec = (lastChars 22 b, p)) ∧
       ('.' ∉ i → normalize_id_parent rec = (lastChars 22 i, p))) := by
  have hID : _to_str (pyGetD rec "id" (.str [])) = i := by
    simp only [pyGetD, hi, _to_str]
  have hP : _to_str (pyGetD rec "parent" (.str [])) = p := by
    simp only [pyGetD, hp, _to_str]
  simp only [normalize_id_parent, hID, hP]
  constructor
  · intro hr
    rw [if_pos hr]
    constructor
    · intro a b hs
      rw [splits_contains hs]
      simp only [if_true]
      rw [takeWhile_splits hs, take_code_eq]
    · intro hnd
      rw [contains_eq_false_iff.mpr hnd]
      simp only [Bool.false_eq_true, if_false]
      rw [take_code_eq]
  · intro hr
    rw [if_neg hr]
    constructor
    · intro a b hs
      rw [splits_contains hs]
      simp only [if_true]
      rw [dropWhile_splits hs]
      simp only [List.tail_cons]
      rw [drop_code_eq]
    · intro hnd
      rw [contains_eq_false_iff.mpr hnd]
      simp only [Bool.false_eq_true, if_false]
      rw [drop_code_eq]

/-- C2 witness: the specification's own example, a root comment whose raw id
is `UgxABCDEF1234567890123456.9999.0000`. -/
theorem id_parent_encoding_inst :
    normalize_id_parent
        [("id", JVal.str "UgxABCDEF1234567890123456.9999.0000".toList),
         ("parent", JVal.str "root".toList)] =
      ("UgxABCDEF1234567890123456".toList, []) := by
  have h := ((id_parent_encoding_spec
      [("id", JVal.str "UgxABCDEF1234567890123456.9999.0000".toList),
       ("parent", JVal.str "root".toList)]
      "UgxABCDEF1234567890123456.9999.0000".toList "root".toList rfl rfl).1 rfl).1
    "UgxABCDEF1234567890123456".toList "9999.0000".toList ⟨by decide, by decide⟩
  exact h.trans (by decide)

/-- C10: when the raw `parent` field is absent, or is any value whose
stringification differs from `"root"` (null, the empty string, any other
string or non-string), `normalize_id_parent` applies the reply rule to the
id — the portion after the first `.`, keeping the last 22 characters — while
the output parent is the stringified raw parent (empty for an absent
parent). -/
theorem nonroot_parent_reply_rule_spec (rec : List (String × JVal)) (i : Chars)
    (hi : rec.lookup "id" = some (.str i)) :
    (∀ v, rec.lookup "parent" = some v → _to_str v ≠ "root".toList →
       (∀ a b, SplitsAtFirstDot i a b →
          normalize_id_parent rec = (lastChars 22 b, _to_str v)) ∧
       ('.' ∉ i → normalize_id_parent rec = (lastChars 22 i, _to_str v))) ∧
    (rec.lookup "parent" = none →
       (∀ a b, SplitsAtFirstDot i a b → normalize_id_parent rec = (lastChars 22 b, [])) ∧
       ('.' ∉ i → normalize_id_parent rec = (lastChars 22 i, []))) := by
  have hID : _to_str (pyGetD rec "id" (.str [])) = i := by
    simp only [pyGetD, hi, _to_str]
  constructor
  · intro v hv hroot
    have hP : _to_str (pyGetD rec "parent" (.str [])) = _to_str v := by
      simp only [pyGetD, hv]
    simp only [normalize_id_parent, hID, hP, if_neg hroot]
    constructor
    · intro a b hs
      rw [splits_contains hs]
      simp only [if_true]
      rw [dropWhile_splits hs]
      simp only [List.tail_cons]
      rw [drop_code_eq]
    · intro hnd
      rw [contains_eq_false_iff.mpr hnd]
      simp only [Bool.false_eq_true, if_false]
      rw [drop_code_eq]
  · intro hv
    have hP : _to_str (pyGetD rec "parent" (.str [])) = [] := by
      simp only [pyGetD, hv, _to_str]
    have hroot : ([] : Chars) ≠ "root".toList := by decide
    simp only [normalize_id_parent, hID, hP, if_neg hroot]
    constructor
    · intro a b hs
      rw [splits_contains hs]
      simp only [if_true]
      rw [dropWhile_splits hs]
      simp only [List.tail_cons]
      rw [drop_code_eq]
    · intro hnd
      rw [contains_eq_false_iff.mpr hnd]
      simp only [Bool.false_eq_true, if_false]
      rw [drop_code_eq]

/-- C10 witness: a record with no `parent` key at all is treated as a reply:
the output parent is empty while the id keeps the part after the first dot. -/
theorem nonroot_parent_reply_rule_inst :
    normalize_id_parent [("id", JVal.str "UgxABC.123.456".toList)] =
      ("123.456".toList, []) := by
  have h := ((nonroot_parent_reply_rule_spec
      [("id", JVal.str "UgxABC.123.456".toList)]
      "UgxABC.123.456".toList rfl).2 rfl).1
    "UgxABC".toList "123.456".toList ⟨by decide, by decide⟩
  exact h.trans (by decide)

/-! ### C4: the normalizer is total and schema-complete -/

/-- C4: for every raw mapping, `normalize_record` (a total function — it
never raises) produces a record whose keys are exactly the twelve canonical
fields in order, each carrying a value of its declared type, and no unknown
or dropped source field appears in the output. -/
theorem normalize_record_schema_spec (rec : List (String × JVal)) :
    ((normalize_record rec).map Prod.fst = canonicalKeys) ∧
    (∃ (s1 s2 s3 s4 s5 : Chars) (n1 n2 : Int) (b1 b2 b3 b4 b5 : Bool),
      normalize_record rec =
        [("id", .str s1), ("parent", .str s2), ("text", .str s3),
         ("like_count", .int n1), ("author_id", .str s4), ("author", .str s5),
         ("author_is_uploader", .bool b1), ("author_is_verified", .bool b2),
         ("is_favorited", .bool b3), ("is_pinned", .bool b4),
         ("timestamp", .int n2), ("edited", .bool b5)]) ∧
    (∀ k, k ∉ canonicalKeys → (normalize_record rec).lookup k = none) := by
  refine ⟨rfl, ⟨_, _, _, _, _, _, _, _, _, _, _, _, rfl⟩, ?_⟩
  intro k hk
  simp only [canonicalKeys, List.mem_cons, List.not_mem_nil, or_false, not_or] at hk
  obtain ⟨h1, h2, h3, h4, h5, h6, h7, h8, h9, h10, h11, h12⟩ := hk
  simp [normalize_record, List.lookup,
    beq_eq_false_iff_ne.mpr h1, beq_eq_false_iff_ne.mpr h2,
    beq_eq_false_iff_ne.mpr h3, beq_eq_false_iff_ne.mpr h4,
    beq_eq_false_iff_ne.mpr h5, beq_eq_false_iff_ne.mpr h6,
    beq_eq_false_iff_ne.mpr h7, beq_eq_false_iff_ne.mpr h8,
    beq_eq_false_iff_ne.mpr h9, beq_eq_false_iff_ne.mpr h10,
    beq_eq_false_iff_ne.mpr h11, beq_eq_false_iff_ne.mpr h12]

/-- C4 witness: a record made only of unknown and dropped fields still
normalizes, and the unknown field does not survive into the output. -/
theorem normalize_record_schema_inst :
    (normalize_record
        [("bogus", JVal.int 3), ("author_url", JVal.str "x".toList)]).lookup "bogus" =
      none :=
  (normalize_record_schema_spec
    [("bogus", JVal.int 3), ("author_url", JVal.str "x".toList)]).2.2 "bogus" (by decide)

/-! ### C7 and C8: integer coercion -/

theorem lookup_dropFields (rec : List (String × JVal)) (k : String)
    (hk : k ∉ DROP_FIELDS) :
    (dropFields rec).lookup k = rec.lookup k := by
  induction rec with
  | nil => rfl
  | cons kv t ih =>
    cases kv with
    | mk a v =>
      by_cases hd : a ∈ DROP_FIELDS
      · have hne : (k == a) = false := by
          refine beq_eq_false_iff_ne.mpr ?_
          intro e
          subst e
          exact hk hd
        have hstep : dropFields ((a, v) :: t) = dropFields t := by
          simp [dropFields, List.filter_cons, hd]
        rw [hstep, ih]
        simp [List.lookup, hne]
      · have hstep : dropFields ((a, v) :: t) = (a, v) :: dropFields t := by
          simp [dropFields, List.filter_cons, hd]
        rw [hstep]
        cases hkk : (k == a)
        · simp [List.lookup, hkk, ih]
        · simp [List.lookup, hkk]

/-- C7 counterexample: a raw `like_count` of `-1` survives negation intact,
so the normalized `like_count` is a negative integer. -/
theorem like_count_negative_cex :
    (normalize_record [("like_count", JVal.int (-1))]).lookup "like_count" =
      some (.int (-1)) ∧ (-1 : Int) < 0 :=
  ⟨rfl, by decide⟩

/-- C7 (amended): the normalized `like_count` is always an integer, and it
is nonnegative whenever the raw `like_count` is not a negative integer, a
negative float, or a string parsing to a negative integer (in particular for
absent, null, boolean and non-numeric raw values). -/
theorem like_count_int_amended (rec : List (String × JVal)) :
    (∃ m : Int, (normalize_record rec).lookup "like_count" = some (.int m)) ∧
    (∀ m : Int, (normalize_record rec).lookup "like_count" = some (.int m) →
      nonNegSrc (rec.lookup "like_count") → 0 ≤ m) := by
  have hval : (normalize_record rec).lookup "like_count" =
      some (.int (_to_int (pyGetD (dropFields rec) "like_count" (.int 0)))) := rfl
  refine ⟨⟨_, hval⟩, ?_⟩
  intro m hm hsrc
  rw [hval] at hm
  injection hm with hm2
  injection hm2 with hm3
  rw [← hm3]
  simp only [pyGetD, lookup_dropFields rec "like_count" (by decide)]
  cases ho : rec.lookup "like_count" with
  | none => simp [_to_int]
  | some v =>
    rw [ho] at hsrc
    cases v with
    | null => simp [_to_int]
    | bool b => cases b <;> simp [_to_int]
    | int n => exact hsrc
    | float q =>
      have hq : (0 : ℚ) ≤ q := hsrc
      have h2 : _to_int (.float q) = ⌊q⌋ := by
        simp [_to_int, ratTrunc, hq]
      rw [h2]
      exact Int.floor_nonneg.mpr hq
    | str s =>
      simp only [_to_int]
      cases hp : pyIntOfString (pyStrip s) with
      | none => simp
      | some n => exact hsrc n hp
    | arr xs => simp [_to_int]
    | obj kvs => simp [_to_int]

/-- C7 witness: a boolean raw `like_count` normalizes to the nonnegative
integer `1`. -/
theorem like_count_int_inst :
    (normalize_record [("like_count", JVal.bool true)]).lookup "like_count" =
      some (.int 1) ∧ (0 : Int) ≤ 1 :=
  ⟨rfl, (like_count_int_amended [("like_count", JVal.bool true)]).2 1 rfl trivial⟩

/-- C8 counterexample: an integer raw value is not converted to `0` as the
claim's "any other type yields 0" clause would have it; it passes through. -/
theorem to_int_int_passthrough_cex :
    _to_int (.int 5) = 5 ∧ ¬ _to_int (.int 5) = 0 :=
  ⟨rfl, by decide⟩

theorem pySpace_eq_false_of_digit {c : Char} (h : c.isDigit = true) :
    pySpace c = false := by
  have hs : ∀ d : Char, d.isDigit = false → (c == d) = false := by
    intro d hd
    refine beq_eq_false_iff_ne.mpr ?_
    intro e
    rw [e] at h
    rw [h] at hd
    cases hd
  simp [pySpace, hs ' ' (by decide), hs '\t' (by decide), hs '\n' (by decide),
    hs '\r' (by decide), hs '\x0b' (by decide), hs '\x0c' (by decide)]

theorem splitSep_no_sep {sep : Char} {l : Chars} (h : ∀ c ∈ l, (c == sep) = false) :
    splitSep sep l = [l] := by
  induction l with
  | nil => rfl
  | cons c t ih =>
    simp [splitSep, h c (List.mem_cons_self c t),
      ih (fun d hd => h d (List.mem_cons_of_mem c hd))]

theorem digitsVal_fold (ds : Chars) : ∀ acc : Nat,
    ds.foldl (fun acc c => acc * 10 + (c.toNat - '0'.toNat)) acc =
      acc * 10 ^ ds.length +
        Nat.ofDigits 10 ((ds.map (fun c => c.toNat - '0'.toNat)).reverse) := by
  induction ds with
  | nil => intro acc; simp [Nat.ofDigits]
  | cons c t ih =>
    intro acc
    simp only [List.foldl_cons, List.length_cons, List.map_cons, List.reverse_cons]
    rw [ih, Nat.ofDigits_append]
    simp only [List.length_reverse, List.length_map, Nat.ofDigits_singleton]
    ring

theorem pyIntDigits_digits {ds : Chars} (hne : ds ≠ [])
    (hdig : ∀ c ∈ ds, c.isDigit = true) :
    pyIntDigits ds =
      some (Nat.ofDigits 10 ((ds.map (fun c => c.toNat - '0'.toNat)).reverse)) := by
  have hchar : ∀ d : Char, d.isDigit = false → ∀ c ∈ ds, (c == d) = false := by
    intro d hd c hc
    refine beq_eq_false_iff_ne.mpr ?_
    intro e
    have h2 := hdig c hc
    rw [e] at h2
    rw [h2] at hd
    cases hd
  have h1 : ds.isEmpty = false := by
    cases ds with
    | nil => exact absurd rfl hne
    | cons c t => rfl
  have h2 : ds.all Char.isDigit = true := List.all_eq_true.mpr hdig
  simp only [pyIntDigits, splitSep_no_sep (hchar '_' (by decide))]
  simp only [List.all_cons, List.all_nil, h1, h2, Bool.not_false, Bool.true_and,
    Bool.and_true, if_true]
  rw [List.filter_eq_self.mpr
    (fun c hc => by simpa [bne] using hchar '_' (by decide) c hc)]
  rw [show digitsVal ds = ds.foldl (fun acc c => acc * 10 + (c.toNat - '0'.toNat)) 0 from rfl]
  rw [digitsVal_fold]
  simp

/-- C8 (amended): for the integer fields' coercion `_to_int`, a boolean
converts to 0 or 1, a plain integer passes through unchanged, a float
truncates toward zero (floor for nonnegative, ceiling for negative), a
string of decimal digits with an optional minus sign parses to its signed
decimal value, every string the integer grammar rejects yields 0, and null,
lists and dicts yield 0. -/
theorem to_int_coercion_amended :
    (∀ b, _to_int (.bool b) = if b then 1 else 0) ∧
    (∀ n : Int, _to_int (.int n) = n) ∧
    (∀ q : ℚ, (0 ≤ q → _to_int (.float q) = ⌊q⌋) ∧ (q < 0 → _to_int (.float q) = ⌈q⌉)) ∧
    (∀ ds : Chars, ds ≠ [] → (∀ c ∈ ds, c.isDigit = true) →
      _to_int (.str ds) =
        ((Nat.ofDigits 10 ((ds.map (fun c => c.toNat - '0'.toNat)).reverse) : ℕ) : ℤ) ∧
      _to_int (.str ('-' :: ds)) =
        -((Nat.ofDigits 10 ((ds.map (fun c => c.toNat - '0'.toNat)).reverse) : ℕ) : ℤ)) ∧
    (∀ s : Chars, pyIntOfString (pyStrip s) = none → _to_int (.str s) = 0) ∧
    (_to_int .null = 0 ∧ ∀ xs kvs, _to_int (.arr xs) = 0 ∧ _to_int (.obj kvs) = 0) := by
  refine ⟨fun b => rfl, fun n => rfl, ?_, ?_, ?_, rfl, fun xs kvs => ⟨rfl, rfl⟩⟩
  · intro q
    constructor
    · intro h
      simp [_to_int, ratTrunc, h]
    · intro h
      simp [_to_int, ratTrunc, not_le.mpr h]
  · intro ds hne hdig
    have hstrip : pyStrip ds = ds :=
      pyStrip_eq_self (fun c hc => pySpace_eq_false_of_digit (hdig c hc))
    have hplus : ∀ c ∈ ds, (c == '+') = false := by
      intro c hc
      refine beq_eq_false_iff_ne.mpr ?_
      intro e
      have h2 := hdig c hc
      rw [e] at h2
      cases h2
    have hminus : ∀ c ∈ ds, (c == '-') = false := by
      intro c hc
      refine beq_eq_false_iff_ne.mpr ?_
      intro e
      have h2 := hdig c hc
      rw [e] at h2
      cases h2
    constructor
    · cases ds with
      | nil => exact absurd rfl hne
      | cons d t =>
        have hparse : pyIntOfString (d :: t) =
            some (((Nat.ofDigits 10
              (((d :: t).map (fun c => c.toNat - '0'.toNat)).reverse) : ℕ) : ℤ)) := by
          simp only [pyIntOfString, hplus d (List.mem_cons_self d t),
            hminus d (List.mem_cons_self d t), Bool.false_eq_true, if_false,
            pyIntDigits_digits (List.cons_ne_nil d t) hdig]
        simp only [_to_int, hstrip, hparse]
    · have hstrip2 : pyStrip ('-' :: ds) = '-' :: ds := by
        refine pyStrip_eq_self ?_
        intro c hc
        rcases List.mem_cons.mp hc with e | hm
        · rw [e]; rfl
        · exact pySpace_eq_false_of_digit (hdig c hm)
      have hparse : pyIntOfString ('-' :: ds) =
          some (-((Nat.ofDigits 10 ((ds.map (fun c => c.toNat - '0'.toNat)).reverse) : ℕ) : ℤ)) := by
        simp only [pyIntOfString]
        rw [if_neg (by decide), if_pos (by decide)]
        rw [pyIntDigits_digits hne hdig]
      simp only [_to_int, hstrip2, hparse]
  · intro s h
    simp [_to_int, h]

/-- C8 witness: the digit string `"230"` and its negation parse to their
decimal values. -/
theorem to_int_coercion_inst :
    _to_int (.str "230".toList) = 230 ∧ _to_int (.str "-230".toList) = -230 := by
  have h := to_int_coercion_amended.2.2.2.1 "230".toList (by decide) (by decide)
  exact ⟨h.1.trans (by decide), h.2.trans (by decide)⟩

/-! ### C6: atomic persistence -/

/-- C6: `atomic_write_text` writes the content to the sibling temporary
file, fsyncs, then renames.  At every state reachable by interrupting the
trace strictly before the rename the final path is untouched (absent when it
started absent), after the full trace the final path holds the complete
content, and no reachable state shows the final path holding anything other
than its initial content or the complete text — a truncated final file is
never observable. -/
theorem atomic_write_crash_spec (text : Chars) (st0 : FsState) :
    (∀ st, MidWrite text st0 st → st.finalFile = st0.finalFile) ∧
    (runOps st0 (atomic_write_text text)).finalFile = some text ∧
    (∀ st, MidWrite text st0 st ∨ st = runOps st0 (atomic_write_text text) →
      st.finalFile = st0.finalFile ∨ st.finalFile = some text) := by
  refine ⟨?_, rfl, ?_⟩
  · intro st h
    cases h with
    | before => rfl
    | during k => rfl
    | afterWrite => rfl
    | afterFsync => rfl
  · intro st h
    rcases h with h | rfl
    · refine Or.inl ?_
      cases h with
      | before => rfl
      | during k => rfl
      | afterWrite => rfl
      | afterFsync => rfl
    · exact Or.inr rfl

/-- C6 witness: interrupting after one character reached the temporary file
leaves the final path absent; the completed trace installs the full text. -/
theorem atomic_write_crash_inst :
    (FsState.mk none (some ("ab".toList.take 1))).finalFile = none ∧
    (runOps ⟨none, none⟩ (atomic_write_text "ab".toList)).finalFile =
      some "ab".toList :=
  ⟨(atomic_write_crash_spec "ab".toList ⟨none, none⟩).1 _ (MidWrite.during 1),
   (atomic_write_crash_spec "ab".toList ⟨none, none⟩).2.1⟩

/-! ### C3: the identifier resolver -/

theorem ytIdMatch_length {s : Chars} (h : ytIdMatch s = true) : s.length = 11 := by
  simp only [ytIdMatch, Bool.and_eq_true, beq_iff_eq] at h
  exact h.1

theorem ytIdMatch_chars {s : Chars} (h : ytIdMatch s = true) :
    ∀ c ∈ s, isIdChar c = true := by
  simp only [ytIdMatch, Bool.and_eq_true, List.all_eq_true] at h
  exact h.2

theorem idChar_beq_ne {c d : Char} (hc : isIdChar c = true) (hd : isIdChar d = false) :
    (c == d) = false := by
  refine beq_eq_false_iff_ne.mpr ?_
  intro e
  rw [e] at hc
  rw [hc] at hd
  cases hd

theorem idChars_beq_false {v : Chars} (hv : ytIdMatch v = true) (d : Char)
    (hd : isIdChar d = false) : ∀ c ∈ v, (c == d) = false :=
  fun c hc => idChar_beq_ne (ytIdMatch_chars hv c hc) hd

theorem idChars_bne {v : Chars} (hv : ytIdMatch v = true) (d : Char)
    (hd : isIdChar d = false) : ∀ c ∈ v, (c != d) = true := by
  intro c hc
  rw [show (c != d) = !(c == d) from rfl, idChars_beq_false hv d hd c hc]
  rfl

theorem pySpace_of_idChar {c : Char} (h : isIdChar c = true) : pySpace c = false := by
  have hs : ∀ d : Char, isIdChar d = false → (c == d) = false :=
    fun d hd => idChar_beq_ne h hd
  simp [pySpace, hs ' ' (by decide), hs '\t' (by decide), hs '\n' (by decide),
    hs '\r' (by decide), hs '\x0b' (by decide), hs '\x0c' (by decide)]

theorem idChars_not_pathDelim {v : Chars} (hv : ytIdMatch v = true) :
    ∀ c ∈ v, (!pathDelim c) = true := by
  intro c hc
  simp [pathDelim, idChars_beq_false hv '?' (by decide) c hc,
    idChars_beq_false hv '#' (by decide) c hc]

theorem pyStrip_front_id {front v : Chars} (hv : ytIdMatch v = true)
    (hf : ∀ c ∈ front, pySpace c = false) : pyStrip (front ++ v) = front ++ v :=
  pyStrip_eq_self (fun c hc => (List.mem_append.mp hc).elim (hf c)
    (fun h => pySpace_of_idChar (ytIdMatch_chars hv c h)))

theorem ytIdMatch_of_ne_length {s : Chars} (h : s.length ≠ 11) :
    ytIdMatch s = false := by
  simp only [ytIdMatch]
  rw [beq_eq_false_iff_ne.mpr h]
  rfl

theorem id_isEmpty_false {v : Chars} (hv : ytIdMatch v = true) : v.isEmpty = false := by
  cases v with
  | nil => exact absurd hv (by decide)
  | cons c t => rfl

theorem dropWhile_eq_self_of_all {p : Char → Bool} {l : Chars}
    (h : ∀ c ∈ l, p c = false) : l.dropWhile p = l := by
  cases l with
  | nil => rfl
  | cons c t => exact dropWhile_cons_false (h c (List.mem_cons_self c t))

theorem optOr_some (c alt : Chars) : optOr (some c) alt = c := rfl

theorem optOr_none (alt : Chars) : optOr none alt = alt := rfl

theorem extractCore_url (s : Chars) (h1 : ytIdMatch s = false)
    (h2 : ("http://".toList.isPrefixOf s || "https://".toList.isPrefixOf s) = true) :
    extractCore s =
      optOr (guBranch ((urlparse s).netloc.map Char.toLower) (urlparse s).path)
        (if containsSub "youtube.com".toList ((urlparse s).netloc.map Char.toLower) then
          ytBranch (urlparse s).path (urlparse s).query s
         else if containsSub "youtu.be".toList ((urlparse s).netloc.map Char.toLower) then
          beBranch (urlparse s).path s
         else s) := by
  simp only [extractCore, h1, h2, Bool.false_eq_true, if_false, if_true]

theorem parseQsV_v {v : Chars} (hv : ytIdMatch v = true) :
    parseQsV ('v' :: '=' :: v) = some v := by
  have hamp : splitSep '&' v = [v] :=
    splitSep_no_sep (idChars_beq_false hv '&' (by decide))
  have hsplit : splitSep '&' ('v' :: '=' :: v) = ['v' :: '=' :: v] := by
    simp only [splitSep]
    rw [hamp]
    rfl
  have hfield : qsField ('v' :: '=' :: v) = some (['v'], v) := by
    have h0 : qsField ('v' :: '=' :: v) = if v.isEmpty then none else some (['v'], v) := rfl
    rw [h0, id_isEmpty_false hv]
    rfl
  rw [parseQsV, hsplit]
  rw [show List.filterMap qsField ['v' :: '=' :: v] = [(['v'], v)] from by
    simp [List.filterMap_cons, hfield]]
  rfl

theorem resolver_bare {v : Chars} (hv : ytIdMatch v = true) :
    extract_video_id v = v := by
  simp only [extract_video_id]
  rw [pyStrip_eq_self (fun c hc => pySpace_of_idChar (ytIdMatch_chars hv c hc))]
  simp only [extractCore, hv, if_true]

theorem resolver_watch {v : Chars} (hv : ytIdMatch v = true) :
    extract_video_id (watchUrl v) = v := by
  have hlen : ("https://www.youtube.com/watch?v=".toList ++ v).length ≠ 11 := by
    rw [List.length_append, ytIdMatch_length hv]
    decide
  simp only [extract_video_id, watchUrl]
  rw [pyStrip_front_id hv (by decide)]
  rw [extractCore_url _ (ytIdMatch_of_ne_length hlen) rfl]
  rw [show (urlparse ("https://www.youtube.com/watch?v=".toList ++ v)).netloc.map Char.toLower
        = "www.youtube.com".toList from rfl]
  rw [show (urlparse ("https://www.youtube.com/watch?v=".toList ++ v)).path
        = "/watch".toList from rfl]
  rw [show (urlparse ("https://www.youtube.com/watch?v=".toList ++ v)).query
        = 'v' :: '=' :: (v.takeWhile (fun c => c != '#')) from rfl]
  rw [show guBranch "www.youtube.com".toList "/watch".toList = none from rfl, optOr_none]
  rw [show containsSub "youtube.com".toList "www.youtube.com".toList = true from rfl,
    if_pos rfl]
  rw [takeWhile_all (idChars_bne hv '#' (by decide))]
  have hw : watchBranch "/watch".toList ('v' :: '=' :: v) = some v := by
    rw [watchBranch, if_pos rfl, parseQsV_v hv]
    show checked v = some v
    rw [checked, if_pos hv]
  rw [ytBranch, hw, optOr_some]

theorem resolver_shorts {v : Chars} (hv : ytIdMatch v = true) :
    extract_video_id (shortsUrl v) = v := by
  have hlen : ("https://www.youtube.com/shorts/".toList ++ v).length ≠ 11 := by
    rw [List.length_append, ytIdMatch_length hv]
    decide
  simp only [extract_video_id, shortsUrl]
  rw [pyStrip_front_id hv (by decide)]
  rw [extractCore_url _ (ytIdMatch_of_ne_length hlen) rfl]
  rw [show (urlparse ("https://www.youtube.com/shorts/".toList ++ v)).netloc.map Char.toLower
        = "www.youtube.com".toList from rfl]
  rw [show (urlparse ("https://www.youtube.com/shorts/".toList ++ v)).path
        = "/shorts/".toList ++ v.takeWhile (fun c => !pathDelim c) from rfl]
  rw [show (urlparse ("https://www.youtube.com/shorts/".toList ++ v)).query
        = (match v.dropWhile (fun c => !pathDelim c) with
           | '?' :: t => t.takeWhile (fun c => c != '#')
           | _ => []) from rfl]
  rw [takeWhile_all (idChars_not_pathDelim hv),
    List.dropWhile_eq_nil_iff.mpr (idChars_not_pathDelim hv)]
  rw [show guBranch "www.youtube.com".toList ("/shorts/".toList ++ v) = none from rfl,
    optOr_none]
  rw [show containsSub "youtube.com".toList "www.youtube.com".toList = true from rfl,
    if_pos rfl]
  have hw : watchBranch ("/shorts/".toList ++ v)
      (match ([] : Chars) with
       | '?' :: t => t.takeWhile (fun c => c != '#')
       | _ => []) = none := rfl
  have hs : pathCand "/shorts/".toList 8 ("/shorts/".toList ++ v) = some v := by
    have hpre : "/shorts/".toList.isPrefixOf ("/shorts/".toList ++ v) = true :=
      List.isPrefixOf_iff_prefix.mpr ⟨v, rfl⟩
    have hdrop : ("/shorts/".toList ++ v).drop 8 = v := List.drop_left "/shorts/".toList v
    rw [pathCand, if_pos hpre, hdrop, takeWhile_all (idChars_bne hv '/' (by decide)),
      checked, if_pos hv]
  rw [ytBranch, hw, optOr_none, hs, optOr_some]

theorem resolver_embed {v : Chars} (hv : ytIdMatch v = true) :
    extract_video_id (embedUrl v) = v := by
  have hlen : ("https://www.youtube.com/embed/".toList ++ v).length ≠ 11 := by
    rw [List.length_append, ytIdMatch_length hv]
    decide
  simp only [extract_video_id, embedUrl]
  rw [pyStrip_front_id hv (by decide)]
  rw [extractCore_url _ (ytIdMatch_of_ne_length hlen) rfl]
  rw [show (urlparse ("https://www.youtube.com/embed/".toList ++ v)).netloc.map Char.toLower
        = "www.youtube.com".toList from rfl]
  rw [show (urlparse ("https://www.youtube.com/embed/".toList ++ v)).path
        = "/embed/".toList ++ v.takeWhile (fun c => !pathDelim c) from rfl]
  rw [show (urlparse ("https://www.youtube.com/embed/".toList ++ v)).query
        = (match v.dropWhile (fun c => !pathDelim c) with
           | '?' :: t => t.takeWhile (fun c => c != '#')
           | _ => []) from rfl]
  rw [takeWhile_all (idChars_not_pathDelim hv),
    List.dropWhile_eq_nil_iff.mpr (idChars_not_pathDelim hv)]
  rw [show guBranch "www.youtube.com".toList ("/embed/".toList ++ v) = none from rfl,
    optOr_none]
  rw [show containsSub "youtube.com".toList "www.youtube.com".toList = true from rfl,
    if_pos rfl]
  have hw : watchBranch ("/embed/".toList ++ v)
      (match ([] : Chars) with
       | '?' :: t => t.takeWhile (fun c => c != '#')
       | _ => []) = none := rfl
  have hnoshorts : pathCand "/shorts/".toList 8 ("/embed/".toList ++ v) = none := rfl
  have he : pathCand "/embed/".toList 7 ("/embed/".toList ++ v) = some v := by
    have hpre : "/embed/".toList.isPrefixOf ("/embed/".toList ++ v) = true :=
      List.isPrefixOf_iff_prefix.mpr ⟨v, rfl⟩
    have hdrop : ("/embed/".toList ++ v).drop 7 = v := List.drop_left "/embed/".toList v
    rw [pathCand, if_pos hpre, hdrop, takeWhile_all (idChars_bne hv '/' (by decide)),
      checked, if_pos hv]
  rw [ytBranch, hw, optOr_none, hnoshorts, optOr_none, he, optOr_some]

theorem resolver_shortDom {v : Chars} (hv : ytIdMatch v = true) :
    extract_video_id (shortDomUrl v) = v := by
  have hlen : ("https://youtu.be/".toList ++ v).length ≠ 11 := by
    rw [List.length_append, ytIdMatch_length hv]
    decide
  simp only [extract_video_id, shortDomUrl]
  rw [pyStrip_front_id hv (by decide)]
  rw [extractCore_url _ (ytIdMatch_of_ne_length hlen) rfl]
  rw [show (urlparse ("https://youtu.be/".toList ++ v)).netloc.map Char.toLower
        = "youtu.be".toList from rfl]
  rw [show (urlparse ("https://youtu.be/".toList ++ v)).path
        = '/' :: v.takeWhile (fun c => !pathDelim c) from rfl]
  rw [takeWhile_all (idChars_not_pathDelim hv)]
  rw [show guBranch "youtu.be".toList ('/' :: v) = none from rfl, optOr_none]
  rw [show containsSub "youtube.com".toList "youtu.be".toList = false from rfl]
  simp only [Bool.false_eq_true, if_false]
  rw [show containsSub "youtu.be".toList "youtu.be".toList = true from rfl, if_pos rfl]
  have hdw : ('/' :: v).dropWhile (fun c => c == '/') = v := by
    show v.dropWhile (fun c => c == '/') = v
    exact dropWhile_eq_self_of_all (idChars_beq_false hv '/' (by decide))
  rw [beBranch, hdw, checked, if_pos hv, optOr_some]

theorem resolver_legacy {v : Chars} (hv : ytIdMatch v = true) :
    extract_video_id (legacyUrl v) = v := by
  have hlen : ("https://lh3.googleusercontent.com/youtube.com/v/".toList ++ v).length ≠ 11 := by
    rw [List.length_append, ytIdMatch_length hv]
    decide
  simp only [extract_video_id, legacyUrl]
  rw [pyStrip_front_id hv (by decide)]
  rw [extractCore_url _ (ytIdMatch_of_ne_length hlen) rfl]
  rw [show (urlparse ("https://lh3.googleusercontent.com/youtube.com/v/".toList ++ v)).netloc.map
        Char.toLower = "lh3.googleusercontent.com".toList from rfl]
  rw [show (urlparse ("https://lh3.googleusercontent.com/youtube.com/v/".toList ++ v)).path
        = "/youtube.com/v/".toList ++ v.takeWhile (fun c => !pathDelim c) from rfl]
  rw [takeWhile_all (idChars_not_pathDelim hv)]
  have hgu : guBranch "lh3.googleusercontent.com".toList
      ("/youtube.com/v/".toList ++ v) = some v := by
    have hpre : "/youtube.com/v/".toList.isPrefixOf ("/youtube.com/v/".toList ++ v) = true :=
      List.isPrefixOf_iff_prefix.mpr ⟨v, rfl⟩
    have hdrop : ("/youtube.com/v/".toList ++ v).drop 15 = v :=
      List.drop_left "/youtube.com/v/".toList v
    rw [guBranch, hpre]
    rw [show ("googleusercontent.com".toList.isSuffixOf
      "lh3.googleusercontent.com".toList) = true from rfl]
    rw [if_pos (by decide : ((true && true) = true)), hdrop,
      takeWhile_all (idChars_bne hv '/' (by decide)), checked, if_pos hv]
  rw [hgu, optOr_some]

theorem resolver_fallback (s : Chars) (h1 : ytIdMatch (pyStrip s) = false)
    (h2 : "http://".toList.isPrefixOf (pyStrip s) = false)
    (h3 : "https://".toList.isPrefixOf (pyStrip s) = false) :
    extract_video_id s = pyStrip s := by
  simp only [extract_video_id, extractCore, h1, h2, h3, Bool.false_eq_true, if_false,
    Bool.or_self]

theorem checked_some {x c : Chars} (h : checked x = some c) : ytIdMatch c = true := by
  by_cases hx : ytIdMatch x = true
  · rw [checked, if_pos hx] at h
    injection h with he
    rw [← he]
    exact hx
  · rw [checked, if_neg hx] at h
    cases h

theorem guBranch_some {h p c : Chars} (hg : guBranch h p = some c) :
    ytIdMatch c = true := by
  rw [guBranch] at hg
  split at hg
  · exact checked_some hg
  · cases hg

theorem watchBranch_some {p q c : Chars} (hg : watchBranch p q = some c) :
    ytIdMatch c = true := by
  rw [watchBranch] at hg
  split at hg
  · cases hq : parseQsV q with
    | some v =>
      rw [hq] at hg
      exact checked_some hg
    | none =>
      rw [hq] at hg
      cases hg
  · cases hg

theorem pathCand_some {p path c : Chars} {n : Nat} (hg : pathCand p n path = some c) :
    ytIdMatch c = true := by
  rw [pathCand] at hg
  split at hg
  · exact checked_some hg
  · cases hg

theorem ytBranch_cases (path query s : Chars) :
    ytBranch path query s = s ∨ ytIdMatch (ytBranch path query s) = true := by
  rw [ytBranch]
  cases hw : watchBranch path query with
  | some c => rw [optOr_some]; exact Or.inr (watchBranch_some hw)
  | none =>
    rw [optOr_none]
    cases hs : pathCand "/shorts/".toList 8 path with
    | some c => rw [optOr_some]; exact Or.inr (pathCand_some hs)
    | none =>
      rw [optOr_none]
      cases he : pathCand "/embed/".toList 7 path with
      | some c => rw [optOr_some]; exact Or.inr (pathCand_some he)
      | none => rw [optOr_none]; exact Or.inl rfl

theorem beBranch_cases (path s : Chars) :
    beBranch path s = s ∨ ytIdMatch (beBranch path s) = true := by
  rw [beBranch]
  cases hc : checked (path.dropWhile (fun c => c == '/')) with
  | some c => rw [optOr_some]; exact Or.inr (checked_some hc)
  | none => rw [optOr_none]; exact Or.inl rfl

theorem extractCore_cases (s : Chars) :
    extractCore s = s ∨ ytIdMatch (extractCore s) = true := by
  simp only [extractCore]
  by_cases h1 : ytIdMatch s = true
  · rw [if_pos h1]
    exact Or.inr h1
  · rw [if_neg h1]
    by_cases h2 : ("http://".toList.isPrefixOf s || "https://".toList.isPrefixOf s) = true
    · rw [if_pos h2]
      cases hg : guBranch ((urlparse s).netloc.map Char.toLower) (urlparse s).path with
      | some c => rw [optOr_some]; exact Or.inr (guBranch_some hg)
      | none =>
        rw [optOr_none]
        by_cases h3 :
            containsSub "youtube.com".toList ((urlparse s).netloc.map Char.toLower) = true
        · rw [if_pos h3]
          exact ytBranch_cases _ _ _
        · rw [if_neg h3]
          by_cases h4 :
              containsSub "youtu.be".toList ((urlparse s).netloc.map Char.toLower) = true
          · rw [if_pos h4]
            exact beBranch_cases _ _
          · rw [if_neg h4]
            exact Or.inl rfl
    · rw [if_neg h2]
      exact Or.inl rfl

/-- C3: every recognized URL shape carrying the same valid 11-character id —
bare id, canonical watch URL, shorts URL, embed URL, short-domain URL, and
the legacy proxied-embed URL — resolves to the identical id; an input that is
neither a valid id nor an absolute http(s) URL resolves to the trimmed input
unchanged; and unconditionally the resolver (a pure total function) returns
either the trimmed input or a string matching the id pattern. -/
theorem identifier_resolver_spec :
    (∀ v : Chars, ytIdMatch v = true →
      extract_video_id v = v ∧
      extract_video_id (watchUrl v) = v ∧
      extract_video_id (shortsUrl v) = v ∧
      extract_video_id (embedUrl v) = v ∧
      extract_video_id (shortDomUrl v) = v ∧
      extract_video_id (legacyUrl v) = v) ∧
    (∀ s : Chars, ytIdMatch (pyStrip s) = false →
      "http://".toList.isPrefixOf (pyStrip s) = false →
      "https://".toList.isPrefixOf (pyStrip s) = false →
      extract_video_id s = pyStrip s) ∧
    (∀ s : Chars, extract_video_id s = pyStrip s ∨
      ytIdMatch (extract_video_id s) = true) :=
  ⟨fun _ hv => ⟨resolver_bare hv, resolver_watch hv, resolver_shorts hv,
     resolver_embed hv, resolver_shortDom hv, resolver_legacy hv⟩,
   resolver_fallback,
   fun s => extractCore_cases (pyStrip s)⟩

/-- C3 witness: the specification's example id in a watch URL, and an
unrecognized string returned unchanged.  (The spec's own fallback example
`not-a-video` happens to match the bare 11-character id pattern and is
returned unchanged through the first branch; `nope!` exercises the true
fallback.) -/
theorem identifier_resolver_inst :
    extract_video_id "https://www.youtube.com/watch?v=abc12345678".toList
      = "abc12345678".toList ∧
    extract_video_id "nope!".toList = "nope!".toList := by
  constructor
  · have h := ((identifier_resolver_spec.1 "abc12345678".toList (by decide)).2).1
    have e : watchUrl "abc12345678".toList =
        "https://www.youtube.com/watch?v=abc12345678".toList := by decide
    rw [← e]
    exact h
  · exact identifier_resolver_spec.2.1 "nope!".toList (by decide) (by decide)
      (by decide)


/-! ### C1, C5 and C9: the fetch orchestrator -/

theorem download_skip {env : FetchEnv}
    (h : globAny env.dirFiles (extract_video_id env.url) = true) :
    download_comments env = ⟨none, none, 1, 0⟩ := by
  simp only [download_comments, h, if_true]

theorem download_noskip {env : FetchEnv}
    (h : globAny env.dirFiles (extract_video_id env.url) = false) :
    download_comments env =
      (match prefetch_metadata env.probeRes with
       | .error e => ⟨some e, none, 0, 1⟩
       | .ok pre =>
         match tryBody env pre with
         | .error e => ⟨some e, none, 1, 2⟩
         | .ok w => ⟨none, w, 1, 2⟩) := by
  simp only [download_comments, h, Bool.false_eq_true, if_false]

theorem truthy_str_of_ne_nil {s : Chars} (h : s ≠ []) : truthy (.str s) = true := by
  cases s with
  | nil => exact absurd rfl h
  | cons c t => rfl

theorem tryBodyObj_pinned (pre : JVal × JVal × JVal) (kvs : List (String × JVal))
    (xs : List JVal) (ud vi : Chars)
    (hxs : kvs.lookup "comments" = some (.arr xs))
    (hud : kvs.lookup "upload_date" = some (.str ud)) (hudne : ud ≠ [])
    (hvi : kvs.lookup "id" = some (.str vi)) (hvine : vi ≠ []) :
    tryBodyObj pre kvs =
      afterGate (.arr xs) (.str ud) (.str vi)
        (gateCheck pre.1 (xs.length : Int)) := by
  have hc : pyGetD kvs "comments" .null = .arr xs := by simp [pyGetD, hxs]
  have hu : pyGetD kvs "upload_date" .null = .str ud := by simp [pyGetD, hud]
  have hv2 : pyGetD kvs "id" .null = .str vi := by simp [pyGetD, hvi]
  simp only [tryBodyObj, hc, hu, hv2, pyOr, truthy_str_of_ne_nil hudne,
    truthy_str_of_ne_nil hvine, if_true, JVal.isNull, Bool.not_true, Bool.or_false,
    Bool.false_or, Bool.or_self, Bool.false_eq_true, if_false, pyLen, afterLen]

/-! The threshold computed by the source (`int(0.95 * c)`, truncation toward
zero of the exact product) equals the floor the specification describes, for
every nonnegative count. -/

theorem ratTrunc_thresh_eq_floor {c : Int} (hc : 0 ≤ c) :
    ratTrunc ((0.95 : ℚ) * c) = ⌊(0.95 : ℚ) * c⌋ := by
  rw [ratTrunc, if_pos]
  refine mul_nonneg (by norm_num) ?_
  exact_mod_cast hc

theorem utf8Len_ge_length (s : Chars) : s.length ≤ utf8Len s := by
  suffices h : ∀ acc : Nat, acc + s.length ≤ s.foldl
      (fun acc c =>
        acc + (if c.toNat < 128 then 1 else if c.toNat < 2048 then 2
               else if c.toNat < 65536 then 3 else 4)) acc by
    simpa [utf8Len] using h 0
  induction s with
  | nil => intro acc; simp
  | cons c t ih =>
    intro acc
    simp only [List.foldl_cons, List.length_cons]
    have h1 : 1 ≤ (if c.toNat < 128 then 1 else if c.toNat < 2048 then 2
        else if c.toNat < 65536 then 3 else 4) := by
      split
      · omega
      · split
        · omega
        · split <;> omega
    have h2 := ih (acc + (if c.toNat < 128 then 1 else if c.toNat < 2048 then 2
        else if c.toNat < 65536 then 3 else 4))
    omega

theorem joinComma_length_ge_head (x : Chars) (xs : List Chars) :
    x.length ≤ (joinComma (x :: xs)).length := by
  cases xs with
  | nil => simp [joinComma]
  | cons y r => simp [joinComma, List.length_append]

theorem serComments_gt3 (x : List (String × JVal)) (xs : List (List (String × JVal))) :
    3 < utf8Len (serComments (x :: xs)) := by
  have h1 : 4 ≤ (serComments (x :: xs)).length := by
    have h2 := joinComma_length_ge_head (serRecord x) (xs.map serRecord)
    have h3 : 2 ≤ (serRecord x).length := by
      simp [serRecord, List.length_append]
    simp only [serComments, List.map_cons, List.length_cons, List.length_append]
    omega
  have h4 := utf8Len_ge_length (serComments (x :: xs))
  omega

theorem sizeGate_ne_none {xs : List JVal} (hne : xs ≠ []) (u v : JVal) :
    sizeGate (.arr xs) u v ≠ none := by
  cases xs with
  | nil => exact absurd rfl hne
  | cons x t =>
    simp only [sizeGate, normalize_comments_list, List.map_cons]
    rw [if_neg (not_le.mpr (serComments_gt3 _ _))]
    simp

theorem download_pinned_int (url : Chars) (dir : List Chars)
    (kvsP kvsF : List (String × JVal)) (c : Int) (xs : List JVal) (ud vi : Chars)
    (hglob : globAny dir (extract_video_id url) = false)
    (hcc : kvsP.lookup "comment_count" = some (.int c))
    (hxs : kvsF.lookup "comments" = some (.arr xs))
    (hud : kvsF.lookup "upload_date" = some (.str ud)) (hudne : ud ≠ [])
    (hvi : kvsF.lookup "id" = some (.str vi)) (hvine : vi ≠ []) :
    download_comments ⟨url, dir, .ok (.obj kvsP), .ok (.obj kvsF)⟩ =
      (if ratTrunc ((0.95 : ℚ) * c) ≤ (xs.length : Int) then
        ⟨none, sizeGate (.arr xs) (.str ud) (.str vi), 1, 2⟩
       else ⟨none, none, 1, 2⟩) := by
  rw [download_noskip hglob]
  have hccG : pyGetD kvsP "comment_count" .null = .int c := by simp [pyGetD, hcc]
  show (match tryBodyObj (pyGetD kvsP "comment_count" .null,
          pyGetD kvsP "upload_date" .null, pyGetD kvsP "id" .null) kvsF with
        | .error e => (⟨some e, none, 1, 2⟩ : DCOut)
        | .ok w => ⟨none, w, 1, 2⟩) = _
  rw [hccG, tryBodyObj_pinned _ _ _ _ _ hxs hud hudne hvi hvine]
  simp only [gateCheck, JVal.isNull, pyThreshold, Bool.false_eq_true, if_false]
  by_cases hd : ratTrunc ((0.95 : ℚ) * c) ≤ (xs.length : Int)
  · rw [if_pos hd]
    simp only [afterGate, decide_eq_true hd, Bool.not_true, Bool.false_eq_true, if_false]
  · rw [if_neg hd]
    simp only [afterGate, decide_eq_false hd, Bool.not_false, if_true]

theorem download_pinned_null (url : Chars) (dir : List Chars)
    (kvsP kvsF : List (String × JVal)) (xs : List JVal) (ud vi : Chars)
    (hglob : globAny dir (extract_video_id url) = false)
    (hcc : kvsP.lookup "comment_count" = none ∨ kvsP.lookup "comment_count" = some .null)
    (hxs : kvsF.lookup "comments" = some (.arr xs))
    (hud : kvsF.lookup "upload_date" = some (.str ud)) (hudne : ud ≠ [])
    (hvi : kvsF.lookup "id" = some (.str vi)) (hvine : vi ≠ []) :
    download_comments ⟨url, dir, .ok (.obj kvsP), .ok (.obj kvsF)⟩ =
      ⟨none, sizeGate (.arr xs) (.str ud) (.str vi), 1, 2⟩ := by
  rw [download_noskip hglob]
  have hccG : pyGetD kvsP "comment_count" .null = .null := by
    rcases hcc with h | h <;> simp [pyGetD, h]
  show (match tryBodyObj (pyGetD kvsP "comment_count" .null,
          pyGetD kvsP "upload_date" .null, pyGetD kvsP "id" .null) kvsF with
        | .error e => (⟨some e, none, 1, 2⟩ : DCOut)
        | .ok w => ⟨none, w, 1, 2⟩) = _
  rw [hccG, tryBodyObj_pinned _ _ _ _ _ hxs hud hudne hvi hvine]
  simp only [gateCheck, JVal.isNull, if_true, afterGate, Bool.not_true,
    Bool.false_eq_true, if_false]

/-- C1: with the external invocations pinned to well-formed payloads, when
the probe produced an integer expected count `c ≥ 0` the result is persisted
only if the number of retrieved comments is at least `⌊0.95 * c⌋` (the
source's `int(0.95 * c)`, which coincides with that floor); below the
threshold nothing is persisted; at or above it (with a nonempty comment
list) the result is persisted; and when the probe offered no comment count
the result is persisted without any threshold check. -/
theorem completeness_gate_spec :
    (∀ (url : Chars) (dir : List Chars) (kvsP kvsF : List (String × JVal))
       (c : Int) (xs : List JVal) (ud vi : Chars),
      globAny dir (extract_video_id url) = false →
      kvsP.lookup "comment_count" = some (.int c) → 0 ≤ c →
      kvsF.lookup "comments" = some (.arr xs) →
      kvsF.lookup "upload_date" = some (.str ud) → ud ≠ [] →
      kvsF.lookup "id" = some (.str vi) → vi ≠ [] →
      ((download_comments ⟨url, dir, .ok (.obj kvsP), .ok (.obj kvsF)⟩).written ≠ none →
        ⌊(0.95 : ℚ) * c⌋ ≤ (xs.length : Int)) ∧
      ((xs.length : Int) < ⌊(0.95 : ℚ) * c⌋ →
        (download_comments ⟨url, dir, .ok (.obj kvsP), .ok (.obj kvsF)⟩).written = none) ∧
      (xs ≠ [] → ⌊(0.95 : ℚ) * c⌋ ≤ (xs.length : Int) →
        (download_comments ⟨url, dir, .ok (.obj kvsP), .ok (.obj kvsF)⟩).written ≠ none)) ∧
    (∀ (url : Chars) (dir : List Chars) (kvsP kvsF : List (String × JVal))
       (xs : List JVal) (ud vi : Chars),
      globAny dir (extract_video_id url) = false →
      (kvsP.lookup "comment_count" = none ∨
        kvsP.lookup "comment_count" = some .null) →
      kvsF.lookup "comments" = some (.arr xs) →
      kvsF.lookup "upload_date" = some (.str ud) → ud ≠ [] →
      kvsF.lookup "id" = some (.str vi) → vi ≠ [] →
      xs ≠ [] →
      (download_comments ⟨url, dir, .ok (.obj kvsP), .ok (.obj kvsF)⟩).written ≠ none) := by
  constructor
  · intro url dir kvsP kvsF c xs ud vi hglob hcc hc0 hxs hud hudne hvi hvine
    rw [download_pinned_int url dir kvsP kvsF c xs ud vi hglob hcc hxs hud hudne hvi hvine,
      ratTrunc_thresh_eq_floor hc0]
    refine ⟨?_, ?_, ?_⟩
    · intro hw
      by_cases hd : ⌊(0.95 : ℚ) * c⌋ ≤ (xs.length : Int)
      · exact hd
      · rw [if_neg hd] at hw
        exact absurd rfl hw
    · intro hlt
      rw [if_neg (not_le.mpr hlt)]
    · intro hne hd
      rw [if_pos hd]
      exact sizeGate_ne_none hne _ _
  · intro url dir kvsP kvsF xs ud vi hglob hcc hxs hud hudne hvi hvine hne
    rw [download_pinned_null url dir kvsP kvsF xs ud vi hglob hcc hxs hud hudne hvi hvine]
    exact sizeGate_ne_none hne _ _

/-- C1 witness: with an expected count of 100 the threshold is 95; a fetch
of 94 comments is rejected (nothing written), one of 95 is accepted, and
with no expected count the fetch is persisted without the check. -/
theorem completeness_gate_inst :
    ratTrunc ((0.95 : ℚ) * ((100 : Int) : ℚ)) = 95 ∧
    (download_comments (gateEnv (.int 100) 94)).written = none ∧
    (download_comments (gateEnv (.int 100) 95)).written ≠ none ∧
    (download_comments (gateEnv .null 1)).written ≠ none := by
  have hfloor : (⌊(0.95 : ℚ) * ((100 : Int) : ℚ)⌋ : Int) = 95 := by
    rw [show ((0.95 : ℚ) * ((100 : Int) : ℚ)) = (95 : ℚ) by norm_num]
    norm_num
  refine ⟨?_, ?_, ?_, ?_⟩
  · rw [ratTrunc_thresh_eq_floor (by norm_num : (0 : Int) ≤ 100)]
    exact hfloor
  · refine (completeness_gate_spec.1
      "https://www.youtube.com/watch?v=abc12345678".toList []
      [("comment_count", .int 100)]
      [("comments", .arr (List.replicate 94 (.obj []))),
       ("upload_date", .str "20240101".toList),
       ("id", .str "abc12345678".toList)]
      100 (List.replicate 94 (.obj [])) "20240101".toList "abc12345678".toList
      rfl rfl (by norm_num) rfl rfl (by decide) rfl (by decide)).2.1 ?_
    rw [hfloor, show ((List.replicate 94 (JVal.obj [])).length : Int) = 94 by simp]
    norm_num
  · refine (completeness_gate_spec.1
      "https://www.youtube.com/watch?v=abc12345678".toList []
      [("comment_count", .int 100)]
      [("comments", .arr (List.replicate 95 (.obj []))),
       ("upload_date", .str "20240101".toList),
       ("id", .str "abc12345678".toList)]
      100 (List.replicate 95 (.obj [])) "20240101".toList "abc12345678".toList
      rfl rfl (by norm_num) rfl rfl (by decide) rfl (by decide)).2.2
      (by simp) ?_
    rw [hfloor, show ((List.replicate 95 (JVal.obj [])).length : Int) = 95 by simp]
  · exact completeness_gate_spec.2
      "https://www.youtube.com/watch?v=abc12345678".toList []
      [("comment_count", .null)]
      [("comments", .arr (List.replicate 1 (.obj []))),
       ("upload_date", .str "20240101".toList),
       ("id", .str "abc12345678".toList)]
      (List.replicate 1 (.obj [])) "20240101".toList "abc12345678".toList
      rfl (Or.inr rfl) rfl rfl (by decide) rfl (by decide) (by simp)

/-- C9: if the output directory already holds a file matching
`{id}_*.json` for the video's resolved identifier, `download_comments` does
nothing but tick the progress bar — no fetch is invoked, nothing is written;
consequently, re-running after a successful write whose filename matches the
video's glob pattern performs no fetch and writes nothing the second time. -/
theorem idempotent_skip_spec :
    (∀ env : FetchEnv, globAny env.dirFiles (extract_video_id env.url) = true →
      download_comments env = ⟨none, none, 1, 0⟩) ∧
    (∀ (env : FetchEnv) (name content : Chars),
      (download_comments env).written = some (name, content) →
      globMatch (extract_video_id env.url) name = true →
      download_comments { env with dirFiles := name :: env.dirFiles } =
        ⟨none, none, 1, 0⟩) := by
  constructor
  · intro env h
    exact download_skip h
  · intro env name content _hw hm
    refine download_skip ?_
    show globAny (name :: env.dirFiles) (extract_video_id env.url) = true
    simp [globAny, List.any_cons, hm]

/-- C9 witness: after the successful fetch of `envWrite` produced
`abc12345678_20240101.json`, a second invocation with that file present
skips — no fetch, no write, one progress tick. -/
theorem idempotent_skip_inst :
    download_comments
        { envWrite with dirFiles := ["abc12345678_20240101.json".toList] } =
      ⟨none, none, 1, 0⟩ :=
  idempotent_skip_spec.2 envWrite "abc12345678_20240101.json".toList
    (serComments (normalize_comments_list (.arr [.obj []]))) rfl rfl

/-! C5: containment of failures. -/

theorem pyLen_ok_of_lenSafe {v : JVal} (h : lenSafe v) (hn : v.isNull = false) :
    ∃ n : Int, pyLen v = .ok n := by
  cases v with
  | null => cases hn
  | bool b => cases h
  | int n => cases h
  | float q => cases h
  | str s => exact ⟨_, rfl⟩
  | arr xs => exact ⟨_, rfl⟩
  | obj kvs => exact ⟨_, rfl⟩

theorem pyThreshold_ok_of_ccSafe {v : JVal} (h : ccSafe v) (hn : v.isNull = false) :
    ∃ t : Int, pyThreshold v = .ok t := by
  cases v with
  | null => cases hn
  | bool b => exact ⟨_, rfl⟩
  | int n => exact ⟨_, rfl⟩
  | float q => exact ⟨_, rfl⟩
  | str s => cases h
  | arr xs => cases h
  | obj kvs => cases h

theorem gateCheck_ok_of_ccSafe {v : JVal} (h : ccSafe v) (got : Int) :
    ∃ b, gateCheck v got = .ok b := by
  by_cases hn : v.isNull = true
  · refine ⟨true, ?_⟩
    rw [gateCheck, if_pos hn]
  · have hn' : v.isNull = false := by
      cases hc : v.isNull
      · rfl
      · exact absurd hc hn
    obtain ⟨t, ht⟩ := pyThreshold_ok_of_ccSafe h hn'
    refine ⟨decide (t ≤ got), ?_⟩
    rw [gateCheck, if_neg hn, ht]

theorem tryBodyObj_ok (pre : JVal × JVal × JVal) (kvs : List (String × JVal))
    (hcc : ccSafe pre.1)
    (hcom : ∀ v, kvs.lookup "comments" = some v → lenSafe v) :
    ∃ w, tryBodyObj pre kvs = .ok w := by
  simp only [tryBodyObj]
  by_cases h1 : ((pyGetD kvs "comments" .null).isNull ||
      !truthy (pyOr (pyGetD kvs "upload_date" .null) pre.2.1) ||
      !truthy (pyOr (pyGetD kvs "id" .null) pre.2.2)) = true
  · rw [if_pos h1]
    exact ⟨none, rfl⟩
  · rw [if_neg h1]
    have hnn : (pyGetD kvs "comments" .null).isNull = false := by
      cases hc : (pyGetD kvs "comments" .null).isNull
      · rfl
      · exact absurd (by simp [hc]) h1
    have hls : lenSafe (pyGetD kvs "comments" .null) := by
      cases hl : kvs.lookup "comments" with
      | none =>
        rw [pyGetD, hl] at hnn
        cases hnn
      | some v =>
        have he : pyGetD kvs "comments" .null = v := by simp [pyGetD, hl]
        rw [he]
        exact hcom v hl
    obtain ⟨n, hn⟩ := pyLen_ok_of_lenSafe hls hnn
    rw [hn]
    simp only [afterLen]
    obtain ⟨b, hb⟩ := gateCheck_ok_of_ccSafe hcc n
    rw [hb]
    simp only [afterGate]
    by_cases hg : (!b) = true
    · rw [if_pos hg]
      exact ⟨none, rfl⟩
    · rw [if_neg hg]
      exact ⟨_, rfl⟩

/-- C5 counterexample: a probe invocation whose stdout parses to a JSON
list (not a dict) makes `prefetch_metadata` raise `AttributeError` before
the `try`/`finally` block is entered: the exception propagates out of
`download_comments` and the progress counter is never incremented, refuting
both halves of the claim. -/
theorem orchestrator_raises_cex :
    (download_comments envProbeList).raised = some .attributeError ∧
    (download_comments envProbeList).pbarUpdates = 0 :=
  ⟨rfl, rfl⟩

/-- C5 (amended): provided every payload the external tool returns parses
to a JSON object, the probe's `comment_count` (when present) is null or
numeric, and the full payload's `comments` (when present) is null or a
sized value, `download_comments` never raises and the progress counter is
incremented exactly once per invocation — on success, already-done skip,
data-quality rejection, and caught-error paths alike. -/
theorem orchestrator_contained_amended (env : FetchEnv)
    (hprobe : ∀ j, env.probeRes = .ok j → ∃ kvs, j = .obj kvs)
    (hfull : ∀ j, env.fullRes = .ok j → ∃ kvs, j = .obj kvs)
    (hccs : ∀ kvs v, env.probeRes = .ok (.obj kvs) →
      kvs.lookup "comment_count" = some v → ccSafe v)
    (hcom : ∀ kvs v, env.fullRes = .ok (.obj kvs) →
      kvs.lookup "comments" = some v → lenSafe v) :
    (download_comments env).raised = none ∧
    (download_comments env).pbarUpdates = 1 := by
  by_cases hg : globAny env.dirFiles (extract_video_id env.url) = true
  · rw [download_skip hg]
    exact ⟨rfl, rfl⟩
  · have hg' : globAny env.dirFiles (extract_video_id env.url) = false := by
      cases h : globAny env.dirFiles (extract_video_id env.url)
      · rfl
      · exact absurd h hg
    rw [download_noskip hg']
    have hpre : ∃ pre, prefetch_metadata env.probeRes = .ok pre ∧ ccSafe pre.1 := by
      cases hp : env.probeRes with
      | fail e => exact ⟨(.null, .null, .null), rfl, trivial⟩
      | badJson => exact ⟨(.null, .null, .null), rfl, trivial⟩
      | ok j =>
        obtain ⟨kvs, rfl⟩ := hprobe j hp
        refine ⟨(pyGetD kvs "comment_count" .null, pyGetD kvs "upload_date" .null,
          pyGetD kvs "id" .null), rfl, ?_⟩
        cases hl : kvs.lookup "comment_count" with
        | none =>
          have he : pyGetD kvs "comment_count" .null = .null := by simp [pyGetD, hl]
          rw [he]
          trivial
        | some v =>
          have he : pyGetD kvs "comment_count" .null = v := by simp [pyGetD, hl]
          rw [he]
          exact hccs kvs v hp hl
    obtain ⟨pre, hpreEq, hccSafe⟩ := hpre
    rw [hpreEq]
    show (match tryBody env pre with
          | .error e => (⟨some e, none, 1, 2⟩ : DCOut)
          | .ok w => ⟨none, w, 1, 2⟩).raised = none ∧
         (match tryBody env pre with
          | .error e => (⟨some e, none, 1, 2⟩ : DCOut)
          | .ok w => ⟨none, w, 1, 2⟩).pbarUpdates = 1
    have htb : ∃ w, tryBody env pre = .ok w := by
      cases hf : env.fullRes with
      | fail e => exact ⟨none, by rw [tryBody, hf]⟩
      | badJson => exact ⟨none, by rw [tryBody, hf]⟩
      | ok j =>
        obtain ⟨kvsF, rfl⟩ := hfull j hf
        obtain ⟨w, hw⟩ := tryBodyObj_ok pre kvsF hccSafe (fun v hl => hcom kvsF v hf hl)
        refine ⟨w, ?_⟩
        rw [tryBody, hf]
        exact hw
    obtain ⟨w, htbEq⟩ := htb
    rw [htbEq]
    exact ⟨rfl, rfl⟩

/-- C5 witness: an environment where both invocations fail outright is
contained: no exception propagates and the progress bar ticks once. -/
theorem orchestrator_contained_inst :
    (download_comments envBothFail).raised = none ∧
    (download_comments envBothFail).pbarUpdates = 1 :=
  orchestrator_contained_amended envBothFail
    (fun _ h => ToolResult.noConfusion h)
    (fun _ h => ToolResult.noConfusion h)
    (fun _ _ h => ToolResult.noConfusion h)
    (fun _ _ h => ToolResult.noConfusion h)

end GetComments
